import Mathlib

/-!
Verification of the OoperLooper audio-workstation core.

This file gives a shallow embedding of the loop-station state machine
(classes LoopStation and LoopSlot of the source script), of the
microphone setup path of the AudioEngine class, and of the lookahead
metronome scheduler (class Metronome), and proves or refutes the
stated properties of that core.

Modelling conventions:
- clock times are rational numbers standing for the real-valued
  audio-clock seconds of the source;
- capture chunks and audio blobs are byte lists; the Blob constructor
  applied to the chunk list is list concatenation (List.flatten);
- the asynchronous onstop callback of a MediaRecorder is modelled by a
  station-level queue of pending finalize deliveries: recorder.stop()
  enqueues the slot index, and a separate finalize event delivers the
  callback, exactly as the single-threaded event loop of the source
  runs it some time after the stopping call returned.
-/

namespace OoperLooper

/-- The four values of the state field of the LoopSlot class
(the source strings are empty, recording, playing and stopped). -/
inductive SlotState
  | empty
  | recording
  | playing
  | stopped
deriving DecidableEq

/-- One loop slot.  Field correspondence with the LoopSlot class:
state; chunks; audioUrl (the object URL of the finalized blob, absent
while null); src and paused and pos are the src, paused flag and
currentTime of the audio element audioEl; hasRecorder records whether
this.recorder has been assigned (a MediaRecorder exists); recStopped
records that recorder.stop() has already been called on the current
recorder, so the recorder is inactive and its onstop delivery is
pending or already delivered. -/
structure LoopSlot where
  state : SlotState
  chunks : List (List Nat)
  audioUrl : Option (List Nat)
  src : Option (List Nat)
  paused : Bool
  pos : ℚ
  hasRecorder : Bool
  recStopped : Bool
deriving DecidableEq

/-- A freshly constructed slot: state empty, no chunks, no blob URL, a
paused audio element at position zero, no recorder yet. -/
def LoopSlot.init : LoopSlot :=
  { state := .empty
    chunks := []
    audioUrl := none
    src := none
    paused := true
    pos := 0
    hasRecorder := false
    recStopped := false }

/-- LoopSlot.startRecording: clears the chunk list, constructs a fresh
MediaRecorder on the record-destination stream (so a recorder now
exists and is active), starts it and sets the state to recording.
The audioUrl of a previous take is not cleared by the source. -/
def LoopSlot.startRecording (s : LoopSlot) : LoopSlot :=
  { s with
    chunks := []
    hasRecorder := true
    recStopped := false
    state := .recording }

/-- LoopSlot.stopRecording: calls recorder.stop() when a recorder
exists and the state is recording.  Stopping an active recorder makes
it inactive and queues its onstop delivery (second component true);
stopping an already inactive recorder is a no-op.  The slot state is
not changed here: it changes only when onstop is delivered. -/
def LoopSlot.stopRecording (s : LoopSlot) : LoopSlot × Bool :=
  if s.hasRecorder ∧ s.state = .recording then
    if s.recStopped then (s, false)
    else ({ s with recStopped := true }, true)
  else (s, false)

/-- LoopSlot.toggle: stops the recording when the slot is recording,
otherwise starts one. -/
def LoopSlot.toggle (s : LoopSlot) : LoopSlot × Bool :=
  if s.state = .recording then s.stopRecording
  else (s.startRecording, false)

/-- The ondataavailable handler of the recorder: pushes the delivered
chunk onto the chunk list. -/
def LoopSlot.ondata (s : LoopSlot) (c : List Nat) : LoopSlot :=
  { s with chunks := s.chunks ++ [c] }

/-- LoopSlot.play: returns at once when audioUrl is null; otherwise
sets the audio element source to the blob URL, resets currentTime to
zero, starts playback and sets the state to playing. -/
def LoopSlot.play (s : LoopSlot) : LoopSlot :=
  match s.audioUrl with
  | none => s
  | some url =>
      { s with src := some url, pos := 0, paused := false, state := .playing }

/-- The onstop handler of the recorder: builds one blob from the
accumulated chunks in arrival order, stores its URL in audioUrl, sets
the state to playing and calls play. -/
def LoopSlot.onstop (s : LoopSlot) : LoopSlot :=
  LoopSlot.play
    { s with audioUrl := some s.chunks.flatten, state := .playing }

/-- LoopSlot.stop: pauses the audio element, resets currentTime to
zero, and moves every non-empty state to stopped.  The recorder is not
touched: a running recorder keeps recording. -/
def LoopSlot.stop (s : LoopSlot) : LoopSlot :=
  let s2 : LoopSlot := { s with paused := true, pos := 0 }
  if s2.state ≠ .empty then { s2 with state := .stopped } else s2

/-- LoopSlot.clear: stops the slot, discards the blob URL and returns
the state to empty.  The chunk list is not cleared by the source. -/
def LoopSlot.clear (s : LoopSlot) : LoopSlot :=
  let s2 := s.stop
  { s2 with audioUrl := none, state := .empty }

/-- The loop station: the three slots of the source constructor, plus
the queue of pending onstop deliveries of stopped recorders (the
asynchronous callbacks the event loop has not yet run). -/
structure LoopStation where
  slots : Fin 3 → LoopSlot
  pending : List (Fin 3)

/-- The station as constructed: three fresh slots, no pending
callbacks. -/
def LoopStation.init : LoopStation :=
  { slots := fun _ => LoopSlot.init, pending := [] }

/-- One iteration of the forEach of LoopStation.toggleRecord: the slot
at position i is force-stopped when it is a slot other than idx and is
in recording state. -/
def stopOtherRec (idx : Fin 3) (st : LoopStation) (i : Fin 3) : LoopStation :=
  if i ≠ idx ∧ (st.slots i).state = .recording then
    let r := (st.slots i).stopRecording
    { slots := Function.update st.slots i r.1
      pending := st.pending ++ (if r.2 then [i] else []) }
  else st

/-- The whole forEach of LoopStation.toggleRecord, over the three slot
indices in order. -/
def LoopStation.forcedStops (st : LoopStation) (idx : Fin 3) : LoopStation :=
  (List.finRange 3).foldl (stopOtherRec idx) st

/-- LoopStation.toggleRecord: force-stops every other recording slot,
then toggles the slot at idx. -/
def LoopStation.toggleRecord (st : LoopStation) (idx : Fin 3) : LoopStation :=
  let st2 := st.forcedStops idx
  let r := (st2.slots idx).toggle
  { slots := Function.update st2.slots idx r.1
    pending := st2.pending ++ (if r.2 then [idx] else []) }

/-- LoopStation.stopAll: calls stop on every slot. -/
def LoopStation.stopAll (st : LoopStation) : LoopStation :=
  { st with slots := fun i => (st.slots i).stop }

/-- LoopStation.playAll: calls play on every slot. -/
def LoopStation.playAll (st : LoopStation) : LoopStation :=
  { st with slots := fun i => (st.slots i).play }

/-- A direct clear call on the slot at position i. -/
def LoopStation.clearSlot (st : LoopStation) (i : Fin 3) : LoopStation :=
  { st with slots := Function.update st.slots i ((st.slots i).clear) }

/-- Delivery of one capture chunk by the recorder of slot i: possible
while that recorder exists and is still active. -/
def LoopStation.chunkArrive (st : LoopStation) (i : Fin 3) (c : List Nat) :
    LoopStation :=
  if (st.slots i).hasRecorder ∧ ¬(st.slots i).recStopped then
    { st with slots := Function.update st.slots i ((st.slots i).ondata c) }
  else st

/-- The event loop delivering the oldest pending onstop callback. -/
def LoopStation.deliverFinalize (st : LoopStation) : LoopStation :=
  match st.pending with
  | [] => st
  | i :: rest =>
      { slots := Function.update st.slots i ((st.slots i).onstop)
        pending := rest }

/-- The discrete events driving the loop station: the external
operations of the source, chunk deliveries, and the event loop running
one pending finalize callback. -/
inductive Ev
  | toggleRecord (i : Fin 3)
  | stopAll
  | playAll
  | clearSlot (i : Fin 3)
  | chunk (i : Fin 3) (c : List Nat)
  | finalize

/-- One event step of the station. -/
def LoopStation.stepEv (st : LoopStation) : Ev → LoopStation
  | .toggleRecord i => st.toggleRecord i
  | .stopAll => st.stopAll
  | .playAll => st.playAll
  | .clearSlot i => st.clearSlot i
  | .chunk i c => st.chunkArrive i c
  | .finalize => st.deliverFinalize

/-- Running a list of events from a station state. -/
def runEv (st : LoopStation) (evs : List Ev) : LoopStation :=
  evs.foldl LoopStation.stepEv st

/-- The station states reachable from the constructed station. -/
def Reachable (st : LoopStation) : Prop :=
  ∃ evs, runEv LoopStation.init evs = st

/-- A slot holding an active recording session: its state reads
recording and its recorder has not been stopped yet. -/
def ActiveRec (st : LoopStation) (i : Fin 3) : Prop :=
  (st.slots i).state = .recording ∧ (st.slots i).recStopped = false

/-- The station invariant maintained by every event: a recording slot
has a recorder; at most one slot holds an active recording session; a
recording slot whose recorder was stopped has its finalize delivery in
the pending queue; an empty slot has no blob URL. -/
def StInv (st : LoopStation) : Prop :=
  (∀ i, (st.slots i).state = .recording → (st.slots i).hasRecorder = true) ∧
  (∀ i j, i ≠ j → ActiveRec st i → ActiveRec st j → False) ∧
  (∀ i, (st.slots i).state = .recording → (st.slots i).recStopped = true →
    i ∈ st.pending) ∧
  (∀ i, (st.slots i).state = .empty → (st.slots i).audioUrl = none)

/-- The microphone state of the AudioEngine class: whether the
getUserMedia stream has been obtained and connected.  The record
destination recordDest, in contrast, is created unconditionally in
AudioEngine.init and exists whether or not the microphone was
granted. -/
structure AudioEngine where
  micConnected : Bool

/-- The alert text of the setupMic failure handler. -/
def micErrMsg : String := "Microphone Access Required for Recording!"

/-- AudioEngine.setupMic: when getUserMedia succeeds the microphone
node is connected; when the permission is denied the catch handler
surfaces the alert and nothing else changes. -/
def AudioEngine.setupMic (e : AudioEngine) (granted : Bool) :
    AudioEngine × Option String :=
  if granted then ({ micConnected := true }, none)
  else (e, some micErrMsg)

/-- The app object, restricted to the collaborators the claims need:
the audio engine and the loop station. -/
structure App where
  audio : AudioEngine
  looper : LoopStation

/-- The record-button path of the app: it calls toggleRecord on the
looper and touches nothing else; in particular it never consults the
microphone state. -/
def App.toggleRecord (a : App) (i : Fin 3) : App :=
  { a with looper := a.looper.toggleRecord i }

/-- The Metronome class fields the scheduler uses: isPlaying, bpm and
nextNoteTime.  The two timing constants of the constructor are the
definitions below. -/
structure Metronome where
  isPlaying : Bool
  bpm : ℚ
  nextNoteTime : ℚ
deriving DecidableEq

/-- The lookahead constant of the constructor: the driving timer
period, 25 milliseconds. -/
def Metronome.lookaheadMs : ℚ := 25

/-- The scheduleAheadTime constant of the constructor: 0.1 seconds. -/
def Metronome.scheduleAheadTime : ℚ := 1 / 10

/-- A metronome as constructed: not playing, 120 bpm. -/
def Metronome.init : Metronome :=
  { isPlaying := false, bpm := 120, nextNoteTime := 0 }

/-- Metronome.nextNote: advances nextNoteTime by one beat of 60 / bpm
seconds. -/
def Metronome.nextNote (m : Metronome) : Metronome :=
  { m with nextNoteTime := m.nextNoteTime + 60 / m.bpm }

/-- The while loop of Metronome.scheduler: while nextNoteTime is below
the limit (current time plus scheduleAheadTime), emit one note at
nextNoteTime and advance by nextNote.  The loop is expressed with a
fuel argument; Metronome.scheduler passes enough fuel for the loop to
reach its exit condition whenever bpm is positive. -/
def schedulerLoop (limit : ℚ) : Nat → Metronome → List ℚ × Metronome
  | 0, m => ([], m)
  | fuel + 1, m =>
      if m.nextNoteTime < limit then
        let r := schedulerLoop limit fuel m.nextNote
        (m.nextNoteTime :: r.1, r.2)
      else ([], m)

/-- An iteration bound for the scheduler loop: the number of beat
steps from nextNoteTime up to the scheduling limit. -/
def Metronome.schedulerFuel (m : Metronome) (now : ℚ) : Nat :=
  (⌈(now + Metronome.scheduleAheadTime - m.nextNoteTime) / (60 / m.bpm)⌉).toNat

/-- Metronome.scheduler: one scheduling pass at clock time now.  It
returns the advanced metronome and the trigger times handed to the
audio graph during the pass, in emission order.  Re-arming the driving
timer is modelled by the run functions below, which decide when the
next pass happens. -/
def Metronome.scheduler (m : Metronome) (now : ℚ) : Metronome × List ℚ :=
  let r := schedulerLoop (now + Metronome.scheduleAheadTime)
    (m.schedulerFuel now) m
  (r.2, r.1)

/-- Metronome.toggle: flips isPlaying.  When it turned on, resets
nextNoteTime to the current clock time and runs one scheduling pass
immediately; when it turned off, cancels the pending driving timer and
emits nothing. -/
def Metronome.toggle (m : Metronome) (now : ℚ) : Metronome × List ℚ :=
  let m2 : Metronome := { m with isPlaying := !m.isPlaying }
  if m2.isPlaying then
    Metronome.scheduler { m2 with nextNoteTime := now } now
  else (m2, [])

/-- Scheduling passes driven by the coarse timer at the given clock
times, collecting all emitted trigger times. -/
def Metronome.runPasses : Metronome → List ℚ → Metronome × List ℚ
  | m, [] => (m, [])
  | m, t :: ts =>
      let r := m.scheduler t
      let rest := Metronome.runPasses r.1 ts
      (rest.1, r.2 ++ rest.2)

/-- All trigger times emitted by a run: start the metronome at clock
time t0 with the given bpm, then let the driving timer fire passes at
the clock times ts. -/
def startAndRun (bpm t0 : ℚ) (ts : List ℚ) : List ℚ :=
  let m : Metronome := { isPlaying := false, bpm := bpm, nextNoteTime := 0 }
  let r := m.toggle t0
  r.2 ++ (Metronome.runPasses r.1 ts).2

/-! Basic facts about the slot operations. -/

theorem stopRecording_state (s : LoopSlot) :
    (s.stopRecording).1.state = s.state := by
  unfold LoopSlot.stopRecording
  split_ifs <;> rfl

theorem stopRecording_hasRecorder (s : LoopSlot) :
    (s.stopRecording).1.hasRecorder = s.hasRecorder := by
  unfold LoopSlot.stopRecording
  split_ifs <;> rfl

theorem stopRecording_audioUrl (s : LoopSlot) :
    (s.stopRecording).1.audioUrl = s.audioUrl := by
  unfold LoopSlot.stopRecording
  split_ifs <;> rfl

theorem stopRecording_chunks (s : LoopSlot) :
    (s.stopRecording).1.chunks = s.chunks := by
  unfold LoopSlot.stopRecording
  split_ifs <;> rfl

theorem stopRecording_recStopped_mono (s : LoopSlot)
    (h : s.recStopped = true) : (s.stopRecording).1.recStopped = true := by
  unfold LoopSlot.stopRecording
  split_ifs <;> simpa using h

theorem stopRecording_recStopped_set (s : LoopSlot)
    (h1 : s.hasRecorder = true) (h2 : s.state = .recording) :
    (s.stopRecording).1.recStopped = true := by
  unfold LoopSlot.stopRecording
  rw [if_pos ⟨h1, h2⟩]
  split_ifs with h3
  · exact h3
  · rfl

theorem stopRecording_enq_true (s : LoopSlot)
    (h : (s.stopRecording).2 = true) :
    s.hasRecorder = true ∧ s.state = .recording ∧ s.recStopped = false := by
  unfold LoopSlot.stopRecording at h
  split_ifs at h with h1 h2
  · exact ⟨h1.1, h1.2, Bool.eq_false_iff.mpr h2⟩

theorem stopRecording_enq_of_set (s : LoopSlot)
    (h1 : (s.stopRecording).1.recStopped = true) (h2 : s.recStopped = false) :
    (s.stopRecording).2 = true := by
  unfold LoopSlot.stopRecording at h1 ⊢
  split_ifs at h1 ⊢ with hc hcs
  · rw [h2] at hcs
    cases hcs
  · rfl
  · rw [h2] at h1
    cases h1

theorem stop_state (s : LoopSlot) :
    (s.stop).state =
      if s.state = SlotState.empty then SlotState.empty else SlotState.stopped := by
  unfold LoopSlot.stop
  by_cases h : s.state = SlotState.empty
  · simp [h]
  · simp [h]

theorem stop_audioUrl (s : LoopSlot) : (s.stop).audioUrl = s.audioUrl := by
  unfold LoopSlot.stop
  by_cases h : s.state = SlotState.empty <;> simp [h]

theorem play_of_none (s : LoopSlot) (h : s.audioUrl = none) : s.play = s := by
  unfold LoopSlot.play
  rw [h]

theorem play_of_some (s : LoopSlot) (u : List Nat) (h : s.audioUrl = some u) :
    s.play =
      { s with src := some u, pos := 0, paused := false, state := .playing } := by
  unfold LoopSlot.play
  rw [h]

theorem play_state_cases (s : LoopSlot) :
    (s.play).state = s.state ∨ (s.play).state = SlotState.playing := by
  cases h : s.audioUrl with
  | none => rw [play_of_none s h]; left; rfl
  | some u => rw [play_of_some s u h]; right; rfl

theorem onstop_fields (s : LoopSlot) :
    (s.onstop).state = SlotState.playing ∧
    (s.onstop).audioUrl = some s.chunks.flatten ∧
    (s.onstop).paused = false ∧
    (s.onstop).pos = 0 ∧
    (s.onstop).src = some s.chunks.flatten := by
  unfold LoopSlot.onstop
  rw [play_of_some _ s.chunks.flatten rfl]
  exact ⟨rfl, rfl, rfl, rfl, rfl⟩

/-! Facts about one step of the force-stop loop of toggleRecord. -/

theorem stopOtherRec_state (idx : Fin 3) (st : LoopStation) (i j : Fin 3) :
    ((stopOtherRec idx st i).slots j).state = (st.slots j).state := by
  unfold stopOtherRec
  split_ifs with h
  · by_cases hj : j = i
    · subst hj
      simp [Function.update_same, stopRecording_state]
    · simp [Function.update_noteq hj]
  · rfl

theorem stopOtherRec_hasRecorder (idx : Fin 3) (st : LoopStation) (i j : Fin 3) :
    ((stopOtherRec idx st i).slots j).hasRecorder = (st.slots j).hasRecorder := by
  unfold stopOtherRec
  split_ifs with h
  · by_cases hj : j = i
    · subst hj
      simp [Function.update_same, stopRecording_hasRecorder]
    · simp [Function.update_noteq hj]
  · rfl

theorem stopOtherRec_audioUrl (idx : Fin 3) (st : LoopStation) (i j : Fin 3) :
    ((stopOtherRec idx st i).slots j).audioUrl = (st.slots j).audioUrl := by
  unfold stopOtherRec
  split_ifs with h
  · by_cases hj : j = i
    · subst hj
      simp [Function.update_same, stopRecording_audioUrl]
    · simp [Function.update_noteq hj]
  · rfl

theorem stopOtherRec_slot_idx (idx : Fin 3) (st : LoopStation) (i : Fin 3) :
    (stopOtherRec idx st i).slots idx = st.slots idx := by
  unfold stopOtherRec
  split_ifs with h
  · simp [Function.update_noteq (Ne.symm h.1)]
  · rfl

theorem stopOtherRec_recStopped_mono (idx : Fin 3) (st : LoopStation) (i j : Fin 3)
    (h : (st.slots j).recStopped = true) :
    ((stopOtherRec idx st i).slots j).recStopped = true := by
  unfold stopOtherRec
  split_ifs with hg
  · by_cases hj : j = i
    · subst hj
      simp [Function.update_same, stopRecording_recStopped_mono _ h]
    · simpa [Function.update_noteq hj] using h
  · exact h

theorem stopOtherRec_recStopped_back (idx : Fin 3) (st : LoopStation) (i j : Fin 3)
    (h : ((stopOtherRec idx st i).slots j).recStopped = false) :
    (st.slots j).recStopped = false := by
  cases hb : (st.slots j).recStopped
  · rfl
  · rw [stopOtherRec_recStopped_mono idx st i j hb] at h
    cases h

theorem stopOtherRec_pending_mono (idx : Fin 3) (st : LoopStation) (i p : Fin 3)
    (h : p ∈ st.pending) : p ∈ (stopOtherRec idx st i).pending := by
  unfold stopOtherRec
  split_ifs with hg
  · exact List.mem_append_left _ h
  · exact h

theorem stopOtherRec_slot_ne (idx : Fin 3) (st : LoopStation) (i j : Fin 3)
    (hj : j ≠ i) : (stopOtherRec idx st i).slots j = st.slots j := by
  unfold stopOtherRec
  split_ifs with hg
  · simp [Function.update_noteq hj]
  · rfl

theorem stopOtherRec_pending_src (idx : Fin 3) (st : LoopStation) (i j : Fin 3)
    (h : ((stopOtherRec idx st i).slots j).recStopped = true) :
    (st.slots j).recStopped = true ∨ j ∈ (stopOtherRec idx st i).pending := by
  by_cases hj : j = i
  · subst hj
    by_cases hb : (st.slots j).recStopped = true
    · exact Or.inl hb
    · right
      have hbf : (st.slots j).recStopped = false := Bool.eq_false_iff.mpr hb
      unfold stopOtherRec at h ⊢
      split_ifs at h ⊢ with hg
      · simp only [Function.update_same] at h
        have henq := stopRecording_enq_of_set _ h hbf
        simp [henq]
      · exact absurd h hb
  · rw [stopOtherRec_slot_ne idx st i j hj] at h
    exact Or.inl h

theorem stopOtherRec_deactivates (idx : Fin 3) (st : LoopStation) (i : Fin 3)
    (hne : i ≠ idx) (hrec : (st.slots i).state = .recording)
    (hhr : (st.slots i).hasRecorder = true) :
    ((stopOtherRec idx st i).slots i).recStopped = true := by
  unfold stopOtherRec
  rw [if_pos ⟨hne, hrec⟩]
  simp only [Function.update_same]
  exact stopRecording_recStopped_set _ hhr hrec

theorem stopOtherRec_not_active (idx : Fin 3) (st : LoopStation) (i j : Fin 3)
    (h : ¬ActiveRec st j) : ¬ActiveRec (stopOtherRec idx st i) j := by
  rintro ⟨h1, h2⟩
  exact h ⟨(stopOtherRec_state idx st i j) ▸ h1,
    stopOtherRec_recStopped_back idx st i j h2⟩

/-! Facts about the whole force-stop loop and toggleRecord. -/

theorem finRange_three : List.finRange 3 = [0, 1, 2] := by decide

theorem forcedStops_eq (st : LoopStation) (idx : Fin 3) :
    st.forcedStops idx =
      stopOtherRec idx (stopOtherRec idx (stopOtherRec idx st 0) 1) 2 := by
  unfold LoopStation.forcedStops
  rw [finRange_three]
  rfl

theorem forcedStops_state (st : LoopStation) (idx j : Fin 3) :
    ((st.forcedStops idx).slots j).state = (st.slots j).state := by
  rw [forcedStops_eq, stopOtherRec_state, stopOtherRec_state, stopOtherRec_state]

theorem forcedStops_hasRecorder (st : LoopStation) (idx j : Fin 3) :
    ((st.forcedStops idx).slots j).hasRecorder = (st.slots j).hasRecorder := by
  rw [forcedStops_eq, stopOtherRec_hasRecorder, stopOtherRec_hasRecorder,
    stopOtherRec_hasRecorder]

theorem forcedStops_audioUrl (st : LoopStation) (idx j : Fin 3) :
    ((st.forcedStops idx).slots j).audioUrl = (st.slots j).audioUrl := by
  rw [forcedStops_eq, stopOtherRec_audioUrl, stopOtherRec_audioUrl,
    stopOtherRec_audioUrl]

theorem forcedStops_slot_idx (st : LoopStation) (idx : Fin 3) :
    (st.forcedStops idx).slots idx = st.slots idx := by
  rw [forcedStops_eq, stopOtherRec_slot_idx, stopOtherRec_slot_idx,
    stopOtherRec_slot_idx]

theorem forcedStops_pending_mono (st : LoopStation) (idx p : Fin 3)
    (h : p ∈ st.pending) : p ∈ (st.forcedStops idx).pending := by
  rw [forcedStops_eq]
  exact stopOtherRec_pending_mono _ _ _ _ (stopOtherRec_pending_mono _ _ _ _
    (stopOtherRec_pending_mono _ _ _ _ h))

theorem forcedStops_recStopped_back (st : LoopStation) (idx j : Fin 3)
    (h : ((st.forcedStops idx).slots j).recStopped = false) :
    (st.slots j).recStopped = false := by
  rw [forcedStops_eq] at h
  exact stopOtherRec_recStopped_back _ _ _ _ (stopOtherRec_recStopped_back _ _ _ _
    (stopOtherRec_recStopped_back _ _ _ _ h))

theorem forcedStops_pending_src (st : LoopStation) (idx j : Fin 3)
    (h : ((st.forcedStops idx).slots j).recStopped = true) :
    (st.slots j).recStopped = true ∨ j ∈ (st.forcedStops idx).pending := by
  rw [forcedStops_eq] at h ⊢
  rcases stopOtherRec_pending_src _ _ _ _ h with h2 | hp
  · rcases stopOtherRec_pending_src _ _ _ _ h2 with h1 | hp
    · rcases stopOtherRec_pending_src _ _ _ _ h1 with h0 | hp
      · exact Or.inl h0
      · exact Or.inr (stopOtherRec_pending_mono _ _ _ _
          (stopOtherRec_pending_mono _ _ _ _ hp))
    · exact Or.inr (stopOtherRec_pending_mono _ _ _ _ hp)
  · exact Or.inr hp

theorem forcedStops_active_back (st : LoopStation) (idx i : Fin 3)
    (h : ActiveRec (st.forcedStops idx) i) : ActiveRec st i := by
  obtain ⟨h1, h2⟩ := h
  rw [forcedStops_state] at h1
  exact ⟨h1, forcedStops_recStopped_back st idx i h2⟩

theorem forcedStops_not_active (st : LoopStation) (idx : Fin 3)
    (ha : ∀ k, (st.slots k).state = SlotState.recording →
      (st.slots k).hasRecorder = true)
    (i : Fin 3) (hne : i ≠ idx) : ¬ActiveRec (st.forcedStops idx) i := by
  rintro ⟨h1, h2⟩
  have hrec : (st.slots i).state = SlotState.recording := by
    rw [forcedStops_state] at h1
    exact h1
  have hhr := ha i hrec
  have hstop : ((st.forcedStops idx).slots i).recStopped = true := by
    rw [forcedStops_eq]
    fin_cases i
    · exact stopOtherRec_recStopped_mono _ _ _ _
        (stopOtherRec_recStopped_mono _ _ _ _
          (stopOtherRec_deactivates idx st 0 hne hrec hhr))
    · have hrec1 : ((stopOtherRec idx st 0).slots 1).state =
          SlotState.recording := by
        rw [stopOtherRec_state]; exact hrec
      have hhr1 : ((stopOtherRec idx st 0).slots 1).hasRecorder = true := by
        rw [stopOtherRec_hasRecorder]; exact hhr
      exact stopOtherRec_recStopped_mono _ _ _ _
        (stopOtherRec_deactivates idx _ 1 hne hrec1 hhr1)
    · have hrec2 : ((stopOtherRec idx (stopOtherRec idx st 0) 1).slots 2).state =
          SlotState.recording := by
        rw [stopOtherRec_state, stopOtherRec_state]; exact hrec
      have hhr2 : ((stopOtherRec idx (stopOtherRec idx st 0) 1).slots
          2).hasRecorder = true := by
        rw [stopOtherRec_hasRecorder, stopOtherRec_hasRecorder]; exact hhr
      exact stopOtherRec_deactivates idx _ 2 hne hrec2 hhr2
  rw [h2] at hstop
  cases hstop

theorem stInv_forcedStops (st : LoopStation) (idx : Fin 3) (h : StInv st) :
    StInv (st.forcedStops idx) := by
  obtain ⟨ha, hb, hc, hd⟩ := h
  refine ⟨?_, ?_, ?_, ?_⟩
  · intro i hi
    rw [forcedStops_state] at hi
    rw [forcedStops_hasRecorder]
    exact ha i hi
  · intro i j hij hai haj
    exact hb i j hij (forcedStops_active_back _ _ _ hai)
      (forcedStops_active_back _ _ _ haj)
  · intro i h1 h2
    rcases forcedStops_pending_src st idx i h2 with hold | hp
    · rw [forcedStops_state] at h1
      exact forcedStops_pending_mono st idx i (hc i h1 hold)
    · exact hp
  · intro i h1
    rw [forcedStops_state] at h1
    rw [forcedStops_audioUrl]
    exact hd i h1

theorem toggleRecord_eq (st : LoopStation) (idx : Fin 3) :
    st.toggleRecord idx =
      { slots := Function.update (st.forcedStops idx).slots idx
          (((st.forcedStops idx).slots idx).toggle).1
        pending := (st.forcedStops idx).pending ++
          (if (((st.forcedStops idx).slots idx).toggle).2 then [idx] else []) } :=
  rfl

theorem stopRecording_enq_false (s : LoopSlot)
    (hhr : s.hasRecorder = true) (hrec : s.state = SlotState.recording)
    (henq : (s.stopRecording).2 = false) :
    s.recStopped = true ∧ (s.stopRecording).1 = s := by
  unfold LoopSlot.stopRecording at henq ⊢
  split_ifs at henq ⊢ with h1 h2
  · exact ⟨h2, rfl⟩
  · exact absurd ⟨hhr, hrec⟩ h1

theorem stInv_toggleRecord (st : LoopStation) (idx : Fin 3) (h : StInv st) :
    StInv (st.toggleRecord idx) := by
  have hinv2 := stInv_forcedStops st idx h
  have hna : ∀ j, j ≠ idx → ¬ActiveRec (st.forcedStops idx) j :=
    fun j hj => forcedStops_not_active st idx h.1 j hj
  rw [toggleRecord_eq]
  obtain ⟨ha, hb, hc, hd⟩ := hinv2
  by_cases hrec : ((st.forcedStops idx).slots idx).state = SlotState.recording
  · have htog : ((st.forcedStops idx).slots idx).toggle =
        ((st.forcedStops idx).slots idx).stopRecording := by
      unfold LoopSlot.toggle
      rw [if_pos hrec]
    rw [htog]
    have hhr := ha idx hrec
    refine ⟨?_, ?_, ?_, ?_⟩
    · intro i hi
      by_cases hii : i = idx
      · subst hii
        simp only [Function.update_same] at hi ⊢
        rw [stopRecording_hasRecorder]
        exact hhr
      · simp only [Function.update_noteq hii] at hi ⊢
        exact ha i hi
    · intro i j hij hai haj
      have hnone : ∀ k, ¬ActiveRec
          ({ slots := Function.update (st.forcedStops idx).slots idx
              (((st.forcedStops idx).slots idx).stopRecording).1
             pending := (st.forcedStops idx).pending ++
              (if (((st.forcedStops idx).slots idx).stopRecording).2
                then [idx] else []) } : LoopStation) k := by
        intro k hk
        obtain ⟨hk1, hk2⟩ := hk
        by_cases hkk : k = idx
        · subst hkk
          simp only [Function.update_same] at hk2
          rw [stopRecording_recStopped_set _ hhr hrec] at hk2
          cases hk2
        · simp only [Function.update_noteq hkk] at hk1 hk2
          exact hna k hkk ⟨hk1, hk2⟩
      exact hnone i hai
    · intro i h1 h2
      by_cases hii : i = idx
      · subst hii
        simp only [Function.update_same] at h1 h2 ⊢
        cases henq : (((st.forcedStops i).slots i).stopRecording).2
        · obtain ⟨hold, _⟩ := stopRecording_enq_false _ hhr hrec henq
          exact List.mem_append_left _ (hc i hrec hold)
        · simp [henq]
      · simp only [Function.update_noteq hii] at h1 h2 ⊢
        exact List.mem_append_left _ (hc i h1 h2)
    · intro i h1
      by_cases hii : i = idx
      · subst hii
        simp only [Function.update_same] at h1
        rw [stopRecording_state, hrec] at h1
        cases h1
      · simp only [Function.update_noteq hii] at h1 ⊢
        exact hd i h1
  · have htog : ((st.forcedStops idx).slots idx).toggle =
        (((st.forcedStops idx).slots idx).startRecording, false) := by
      unfold LoopSlot.toggle
      rw [if_neg hrec]
    rw [htog]
    refine ⟨?_, ?_, ?_, ?_⟩
    · intro i hi
      by_cases hii : i = idx
      · subst hii
        simp [Function.update_same, LoopSlot.startRecording]
      · simp only [Function.update_noteq hii] at hi ⊢
        exact ha i hi
    · intro i j hij hai haj
      by_cases hii : i = idx
      · by_cases hjj : j = idx
        · exact hij (hii.trans hjj.symm)
        · obtain ⟨hj1, hj2⟩ := haj
          simp only [Function.update_noteq hjj] at hj1 hj2
          exact hna j hjj ⟨hj1, hj2⟩
      · obtain ⟨hi1, hi2⟩ := hai
        simp only [Function.update_noteq hii] at hi1 hi2
        exact hna i hii ⟨hi1, hi2⟩
    · intro i h1 h2
      by_cases hii : i = idx
      · subst hii
        simp only [Function.update_same] at h2
        simp [LoopSlot.startRecording] at h2
      · simp only [Function.update_noteq hii] at h1 h2 ⊢
        exact List.mem_append_left _ (hc i h1 h2)
    · intro i h1
      by_cases hii : i = idx
      · subst hii
        simp only [Function.update_same] at h1
        simp [LoopSlot.startRecording] at h1
      · simp only [Function.update_noteq hii] at h1 ⊢
        exact hd i h1

/-! Invariant preservation by the remaining events. -/

theorem stopAll_slot (st : LoopStation) (i : Fin 3) :
    (st.stopAll).slots i = (st.slots i).stop := rfl

theorem stopAll_pending (st : LoopStation) : (st.stopAll).pending = st.pending :=
  rfl

theorem playAll_slot (st : LoopStation) (i : Fin 3) :
    (st.playAll).slots i = (st.slots i).play := rfl

theorem playAll_pending (st : LoopStation) : (st.playAll).pending = st.pending :=
  rfl

theorem stInv_stopAll (st : LoopStation) (h : StInv st) : StInv st.stopAll := by
  obtain ⟨ha, hb, hc, hd⟩ := h
  refine ⟨?_, ?_, ?_, ?_⟩
  · intro i hi
    rw [stopAll_slot, stop_state] at hi
    split_ifs at hi
  · intro i j hij hai haj
    obtain ⟨h1, _⟩ := hai
    rw [stopAll_slot, stop_state] at h1
    split_ifs at h1
  · intro i h1 h2
    rw [stopAll_slot, stop_state] at h1
    split_ifs at h1
  · intro i h1
    rw [stopAll_slot, stop_state] at h1
    rw [stopAll_slot, stop_audioUrl]
    split_ifs at h1 with hcc
    · exact hd i hcc

theorem stInv_playAll (st : LoopStation) (h : StInv st) : StInv st.playAll := by
  obtain ⟨ha, hb, hc, hd⟩ := h
  refine ⟨?_, ?_, ?_, ?_⟩
  · intro i hi
    rw [playAll_slot] at hi ⊢
    cases hu : (st.slots i).audioUrl with
    | none =>
        rw [play_of_none _ hu] at hi ⊢
        exact ha i hi
    | some u =>
        rw [play_of_some _ u hu] at hi
        cases hi
  · intro i j hij hai haj
    have back : ∀ k, ActiveRec st.playAll k → ActiveRec st k := by
      intro k hk
      obtain ⟨hk1, hk2⟩ := hk
      rw [playAll_slot] at hk1 hk2
      cases hu : (st.slots k).audioUrl with
      | none =>
          rw [play_of_none _ hu] at hk1 hk2
          exact ⟨hk1, hk2⟩
      | some u =>
          rw [play_of_some _ u hu] at hk1
          cases hk1
    exact hb i j hij (back i hai) (back j haj)
  · intro i h1 h2
    rw [playAll_slot] at h1 h2
    rw [playAll_pending]
    cases hu : (st.slots i).audioUrl with
    | none =>
        rw [play_of_none _ hu] at h1 h2
        exact hc i h1 h2
    | some u =>
        rw [play_of_some _ u hu] at h1
        cases h1
  · intro i h1
    rw [playAll_slot] at h1 ⊢
    cases hu : (st.slots i).audioUrl with
    | none =>
        rw [play_of_none _ hu] at h1 ⊢
        exact hd i h1
    | some u =>
        rw [play_of_some _ u hu] at h1
        cases h1

theorem clearSlot_slot_same (st : LoopStation) (i : Fin 3) :
    (st.clearSlot i).slots i = (st.slots i).clear := by
  unfold LoopStation.clearSlot
  simp [Function.update_same]

theorem clearSlot_slot_ne (st : LoopStation) (i j : Fin 3) (h : j ≠ i) :
    (st.clearSlot i).slots j = st.slots j := by
  unfold LoopStation.clearSlot
  simp [Function.update_noteq h]

theorem clearSlot_pending (st : LoopStation) (i : Fin 3) :
    (st.clearSlot i).pending = st.pending := rfl

theorem clear_state (s : LoopSlot) : (s.clear).state = SlotState.empty := rfl

theorem clear_audioUrl (s : LoopSlot) : (s.clear).audioUrl = none := rfl

theorem stInv_clearSlot (st : LoopStation) (i0 : Fin 3) (h : StInv st) :
    StInv (st.clearSlot i0) := by
  obtain ⟨ha, hb, hc, hd⟩ := h
  refine ⟨?_, ?_, ?_, ?_⟩
  · intro i hi
    by_cases hii : i = i0
    · subst hii
      rw [clearSlot_slot_same, clear_state] at hi
      cases hi
    · rw [clearSlot_slot_ne st i0 i hii] at hi ⊢
      exact ha i hi
  · intro i j hij hai haj
    have back : ∀ k, ActiveRec (st.clearSlot i0) k → ActiveRec st k := by
      intro k hk
      obtain ⟨hk1, hk2⟩ := hk
      by_cases hkk : k = i0
      · subst hkk
        rw [clearSlot_slot_same, clear_state] at hk1
        cases hk1
      · rw [clearSlot_slot_ne st i0 k hkk] at hk1 hk2
        exact ⟨hk1, hk2⟩
    exact hb i j hij (back i hai) (back j haj)
  · intro i h1 h2
    rw [clearSlot_pending]
    by_cases hii : i = i0
    · subst hii
      rw [clearSlot_slot_same, clear_state] at h1
      cases h1
    · rw [clearSlot_slot_ne st i0 i hii] at h1 h2
      exact hc i h1 h2
  · intro i h1
    by_cases hii : i = i0
    · subst hii
      rw [clearSlot_slot_same, clear_audioUrl]
    · rw [clearSlot_slot_ne st i0 i hii] at h1 ⊢
      exact hd i h1

theorem chunkArrive_slot_fields (st : LoopStation) (i : Fin 3) (c : List Nat)
    (j : Fin 3) :
    ((st.chunkArrive i c).slots j).state = (st.slots j).state ∧
    ((st.chunkArrive i c).slots j).hasRecorder = (st.slots j).hasRecorder ∧
    ((st.chunkArrive i c).slots j).recStopped = (st.slots j).recStopped ∧
    ((st.chunkArrive i c).slots j).audioUrl = (st.slots j).audioUrl := by
  unfold LoopStation.chunkArrive
  split_ifs with hg
  · by_cases hj : j = i
    · subst hj
      simp [Function.update_same, LoopSlot.ondata]
    · simp [Function.update_noteq hj]
  · exact ⟨rfl, rfl, rfl, rfl⟩

theorem chunkArrive_pending (st : LoopStation) (i : Fin 3) (c : List Nat) :
    (st.chunkArrive i c).pending = st.pending := by
  unfold LoopStation.chunkArrive
  split_ifs <;> rfl

theorem stInv_chunkArrive (st : LoopStation) (i0 : Fin 3) (c : List Nat)
    (h : StInv st) : StInv (st.chunkArrive i0 c) := by
  obtain ⟨ha, hb, hc, hd⟩ := h
  refine ⟨?_, ?_, ?_, ?_⟩
  · intro i hi
    rw [(chunkArrive_slot_fields st i0 c i).1] at hi
    rw [(chunkArrive_slot_fields st i0 c i).2.1]
    exact ha i hi
  · intro i j hij hai haj
    have back : ∀ k, ActiveRec (st.chunkArrive i0 c) k → ActiveRec st k := by
      intro k hk
      obtain ⟨hk1, hk2⟩ := hk
      rw [(chunkArrive_slot_fields st i0 c k).1] at hk1
      rw [(chunkArrive_slot_fields st i0 c k).2.2.1] at hk2
      exact ⟨hk1, hk2⟩
    exact hb i j hij (back i hai) (back j haj)
  · intro i h1 h2
    rw [(chunkArrive_slot_fields st i0 c i).1] at h1
    rw [(chunkArrive_slot_fields st i0 c i).2.2.1] at h2
    rw [chunkArrive_pending]
    exact hc i h1 h2
  · intro i h1
    rw [(chunkArrive_slot_fields st i0 c i).1] at h1
    rw [(chunkArrive_slot_fields st i0 c i).2.2.2]
    exact hd i h1

theorem stInv_deliverFinalize (st : LoopStation) (h : StInv st) :
    StInv st.deliverFinalize := by
  obtain ⟨ha, hb, hc, hd⟩ := h
  cases hp : st.pending with
  | nil =>
      have heq : st.deliverFinalize = st := by
        unfold LoopStation.deliverFinalize
        rw [hp]
      rw [heq]
      exact ⟨ha, hb, hc, hd⟩
  | cons i0 rest =>
      have heq : st.deliverFinalize =
          { slots := Function.update st.slots i0 ((st.slots i0).onstop)
            pending := rest } := by
        unfold LoopStation.deliverFinalize
        rw [hp]
      rw [heq]
      refine ⟨?_, ?_, ?_, ?_⟩
      · intro i hi
        by_cases hii : i = i0
        · subst hii
          simp only [Function.update_same] at hi
          rw [(onstop_fields _).1] at hi
          cases hi
        · simp only [Function.update_noteq hii] at hi ⊢
          exact ha i hi
      · intro i j hij hai haj
        have back : ∀ k, ActiveRec
            ({ slots := Function.update st.slots i0 ((st.slots i0).onstop)
               pending := rest } : LoopStation) k → ActiveRec st k := by
          intro k hk
          obtain ⟨hk1, hk2⟩ := hk
          by_cases hkk : k = i0
          · subst hkk
            simp only [Function.update_same] at hk1
            rw [(onstop_fields _).1] at hk1
            cases hk1
          · simp only [Function.update_noteq hkk] at hk1 hk2
            exact ⟨hk1, hk2⟩
        exact hb i j hij (back i hai) (back j haj)
      · intro i h1 h2
        by_cases hii : i = i0
        · subst hii
          simp only [Function.update_same] at h1
          rw [(onstop_fields _).1] at h1
          cases h1
        · simp only [Function.update_noteq hii] at h1 h2 ⊢
          have hmem := hc i h1 h2
          rw [hp] at hmem
          rcases List.mem_cons.mp hmem with hcontra | hm
          · exact absurd hcontra hii
          · exact hm
      · intro i h1
        by_cases hii : i = i0
        · subst hii
          simp only [Function.update_same] at h1
          rw [(onstop_fields _).1] at h1
          cases h1
        · simp only [Function.update_noteq hii] at h1 ⊢
          exact hd i h1

theorem stInv_stepEv (st : LoopStation) (e : Ev) (h : StInv st) :
    StInv (st.stepEv e) := by
  cases e with
  | toggleRecord i => exact stInv_toggleRecord st i h
  | stopAll => exact stInv_stopAll st h
  | playAll => exact stInv_playAll st h
  | clearSlot i => exact stInv_clearSlot st i h
  | chunk i c => exact stInv_chunkArrive st i c h
  | finalize => exact stInv_deliverFinalize st h

theorem stInv_runEv (st : LoopStation) (evs : List Ev) (h : StInv st) :
    StInv (runEv st evs) := by
  induction evs generalizing st with
  | nil => exact h
  | cons e rest ih => exact ih (st.stepEv e) (stInv_stepEv st e h)

theorem stInv_init : StInv LoopStation.init := by
  refine ⟨by decide, ?_, by decide, by decide⟩
  intro i j hij hai haj
  obtain ⟨h1, _⟩ := hai
  simp [LoopStation.init, LoopSlot.init] at h1

theorem reachable_stInv (st : LoopStation) (h : Reachable st) : StInv st := by
  obtain ⟨evs, rfl⟩ := h
  exact stInv_runEv _ evs stInv_init

/-! Further execution lemmas used by the claim theorems. -/

theorem stopOtherRec_eq_self (idx : Fin 3) (st : LoopStation) (i : Fin 3)
    (h : i = idx ∨ (st.slots i).state ≠ SlotState.recording) :
    stopOtherRec idx st i = st := by
  unfold stopOtherRec
  rw [if_neg]
  rintro ⟨h1, h2⟩
  rcases h with h | h
  · exact h1 h
  · exact h h2

theorem forcedStops_eq_self (st : LoopStation) (idx : Fin 3)
    (h : ∀ j, j ≠ idx → (st.slots j).state ≠ SlotState.recording) :
    st.forcedStops idx = st := by
  rw [forcedStops_eq]
  have e0 : stopOtherRec idx st 0 = st := by
    by_cases h0 : (0 : Fin 3) = idx
    · exact stopOtherRec_eq_self idx st 0 (Or.inl h0)
    · exact stopOtherRec_eq_self idx st 0 (Or.inr (h 0 h0))
  rw [e0]
  have e1 : stopOtherRec idx st 1 = st := by
    by_cases h1 : (1 : Fin 3) = idx
    · exact stopOtherRec_eq_self idx st 1 (Or.inl h1)
    · exact stopOtherRec_eq_self idx st 1 (Or.inr (h 1 h1))
  rw [e1]
  by_cases h2 : (2 : Fin 3) = idx
  · exact stopOtherRec_eq_self idx st 2 (Or.inl h2)
  · exact stopOtherRec_eq_self idx st 2 (Or.inr (h 2 h2))

theorem toggleRecord_of_quiet (st : LoopStation) (idx : Fin 3)
    (h : ∀ j, j ≠ idx → (st.slots j).state ≠ SlotState.recording) :
    st.toggleRecord idx =
      { slots := Function.update st.slots idx ((st.slots idx).toggle).1
        pending := st.pending ++
          (if ((st.slots idx).toggle).2 then [idx] else []) } := by
  rw [toggleRecord_eq, forcedStops_eq_self st idx h]

theorem runEv_append (st : LoopStation) (l1 l2 : List Ev) :
    runEv st (l1 ++ l2) = runEv (runEv st l1) l2 := by
  simp [runEv, List.foldl_append]

theorem runEv_chunks (cs : List (List Nat)) : ∀ (st : LoopStation) (i : Fin 3),
    (st.slots i).hasRecorder = true → (st.slots i).recStopped = false →
    runEv st (cs.map (Ev.chunk i)) =
      { st with slots := (Function.update st.slots i
          { st.slots i with chunks := (st.slots i).chunks ++ cs }) } := by
  induction cs with
  | nil =>
      intro st i h1 h2
      have he : ({ st.slots i with chunks := (st.slots i).chunks ++ [] } :
          LoopSlot) = st.slots i := by
        rw [List.append_nil]
      rw [he, Function.update_eq_self]
      rfl
  | cons c rest ih =>
      intro st i h1 h2
      have harr : st.chunkArrive i c =
          { st with slots := Function.update st.slots i ((st.slots i).ondata c) } := by
        unfold LoopStation.chunkArrive
        rw [if_pos]
        exact ⟨h1, by simp [h2]⟩
      have hstep : runEv st ((c :: rest).map (Ev.chunk i)) =
          runEv (st.chunkArrive i c) (rest.map (Ev.chunk i)) := rfl
      rw [hstep, harr,
        ih _ i (by simp [Function.update_same, LoopSlot.ondata, h1])
          (by simp [Function.update_same, LoopSlot.ondata, h2])]
      simp [Function.update_idem, Function.update_same, LoopSlot.ondata,
        List.append_assoc]

/-! Claim theorems for the loop station. -/

/-- Claim C1, counterexample: starting a recording on slot 0 and then
calling toggleRecord on slot 1 leaves both slots reading the recording
state immediately after the call returns, because the force-stopped
slot only leaves recording when its finalize callback runs.  This
refutes the claim that at most one slot is recording at every instant
including immediately after a toggleRecord call returns. -/
theorem C1_counterexample :
    ((runEv LoopStation.init [Ev.toggleRecord 0, Ev.toggleRecord 1]).slots
      0).state = SlotState.recording ∧
    ((runEv LoopStation.init [Ev.toggleRecord 0, Ev.toggleRecord 1]).slots
      1).state = SlotState.recording ∧
    (0 : Fin 3) ≠ 1 := by
  decide

/-- Claim C1, amended: for every sequence of events, at every quiescent
instant, that is whenever no finalize callback is pending, at most one
slot of the station is in the recording state. -/
theorem C1_at_most_one_recording_when_quiescent (evs : List Ev)
    (h : (runEv LoopStation.init evs).pending = []) (i j : Fin 3)
    (hij : i ≠ j) :
    ¬(((runEv LoopStation.init evs).slots i).state = SlotState.recording ∧
      ((runEv LoopStation.init evs).slots j).state = SlotState.recording) := by
  obtain ⟨ha, hb, hc, hd⟩ := stInv_runEv LoopStation.init evs stInv_init
  rintro ⟨hi, hj⟩
  have hri : ((runEv LoopStation.init evs).slots i).recStopped = false := by
    cases hx : ((runEv LoopStation.init evs).slots i).recStopped
    · rfl
    · have hm := hc i hi hx
      rw [h] at hm
      exact absurd hm (List.not_mem_nil i)
  have hrj : ((runEv LoopStation.init evs).slots j).recStopped = false := by
    cases hx : ((runEv LoopStation.init evs).slots j).recStopped
    · rfl
    · have hm := hc j hj hx
      rw [h] at hm
      exact absurd hm (List.not_mem_nil j)
  exact hb i j hij ⟨hi, hri⟩ ⟨hj, hrj⟩

/-- Witness for the amended claim C1 at a concrete quiescent run. -/
theorem C1_witness :
    ¬(((runEv LoopStation.init [Ev.toggleRecord 0]).slots 0).state =
        SlotState.recording ∧
      ((runEv LoopStation.init [Ev.toggleRecord 0]).slots 1).state =
        SlotState.recording) :=
  C1_at_most_one_recording_when_quiescent [Ev.toggleRecord 0] (by decide)
    0 1 (by decide)

/-- Claim C2, counterexample: a slot in the playing state, obtained by
recording and finalizing, moves to the recording state when its toggle
is applied, not to the stopped state as claimed. -/
theorem C2_counterexample :
    ((runEv LoopStation.init
      [Ev.toggleRecord 0, Ev.toggleRecord 0, Ev.finalize]).slots 0).state =
        SlotState.playing ∧
    (((runEv LoopStation.init
      [Ev.toggleRecord 0, Ev.toggleRecord 0, Ev.finalize]).slots
        0).toggle).1.state = SlotState.recording := by
  decide

/-- Claim C2, amended: toggle on a playing or stopped slot starts a new
recording rather than switching between playing and stopped; the
playing to stopped transition, pausing playback and resetting position
to the start, is performed by the stop operation, and the stopped to
playing transition by the play operation. -/
theorem C2_toggle_starts_recording (s : LoopSlot) :
    ((s.state = SlotState.playing ∨ s.state = SlotState.stopped) →
      ((s.toggle).1.state = SlotState.recording ∧ (s.toggle).2 = false)) ∧
    (s.state = SlotState.playing →
      ((s.stop).state = SlotState.stopped ∧ (s.stop).paused = true ∧
        (s.stop).pos = 0)) ∧
    (∀ u, s.state = SlotState.stopped → s.audioUrl = some u →
      ((s.play).state = SlotState.playing ∧ (s.play).pos = 0 ∧
        (s.play).paused = false)) := by
  refine ⟨?_, ?_, ?_⟩
  · intro hs
    have hne : s.state ≠ SlotState.recording := by
      rcases hs with h | h <;> rw [h] <;> decide
    unfold LoopSlot.toggle
    rw [if_neg hne]
    exact ⟨rfl, rfl⟩
  · intro hs
    simp [LoopSlot.stop, hs]
  · intro u hs hu
    rw [play_of_some s u hu]
    exact ⟨rfl, rfl, rfl⟩

/-- Witness for the amended claim C2 at a concrete playing slot. -/
theorem C2_witness :
    ((({ LoopSlot.init with state := SlotState.playing, audioUrl := some [1] }
        : LoopSlot).toggle).1.state = SlotState.recording) ∧
    ((({ LoopSlot.init with state := SlotState.playing, audioUrl := some [1] }
        : LoopSlot).stop).state = SlotState.stopped) :=
  ⟨((C2_toggle_starts_recording _).1 (Or.inl rfl)).1,
   ((C2_toggle_starts_recording _).2.1 rfl).1⟩

/-- Claim C7: after stopAll, no slot is in the playing or recording
state, and every slot that was empty before the call is still empty
after it. -/
theorem C7_stopAll_stops_all (st : LoopStation) (i : Fin 3) :
    ((st.stopAll).slots i).state ≠ SlotState.playing ∧
    ((st.stopAll).slots i).state ≠ SlotState.recording ∧
    ((st.slots i).state = SlotState.empty →
      ((st.stopAll).slots i).state = SlotState.empty) := by
  rw [stopAll_slot, stop_state]
  by_cases h : (st.slots i).state = SlotState.empty
  · rw [if_pos h]
    exact ⟨by decide, by decide, fun _ => rfl⟩
  · rw [if_neg h]
    exact ⟨by decide, by decide, fun hc => absurd hc h⟩

/-- Witness for claim C7 at the freshly constructed station. -/
theorem C7_witness :
    ((LoopStation.init.stopAll).slots 0).state ≠ SlotState.playing ∧
    ((LoopStation.init.stopAll).slots 0).state ≠ SlotState.recording ∧
    ((LoopStation.init.stopAll).slots 0).state = SlotState.empty :=
  ⟨(C7_stopAll_stops_all LoopStation.init 0).1,
   (C7_stopAll_stops_all LoopStation.init 0).2.1,
   (C7_stopAll_stops_all LoopStation.init 0).2.2 rfl⟩

/-- Claim C8, counterexample: a slot that is recording a new take while
holding the asset of an earlier take is not left unaffected by playAll:
its state flips from recording to playing.  This refutes the claim that
playAll affects exactly the stopped slots. -/
theorem C8_counterexample :
    ((runEv LoopStation.init [Ev.toggleRecord 0, Ev.toggleRecord 0,
      Ev.finalize, Ev.toggleRecord 0]).slots 0).state =
        SlotState.recording ∧
    (((runEv LoopStation.init [Ev.toggleRecord 0, Ev.toggleRecord 0,
      Ev.finalize, Ev.toggleRecord 0]).playAll).slots 0).state =
        SlotState.playing := by
  decide

/-- Claim C8, amended: playAll invokes play on every slot, so a slot
with no recorded asset is unaffected, whatever its state, while every
slot holding a recorded asset, whether stopped, playing or recording,
is set to playing with its position reset to the start. -/
theorem C8_playAll_plays_exactly_slots_with_asset (st : LoopStation)
    (i : Fin 3) :
    ((st.slots i).audioUrl = none → (st.playAll).slots i = st.slots i) ∧
    (∀ u, (st.slots i).audioUrl = some u →
      (((st.playAll).slots i).state = SlotState.playing ∧
        ((st.playAll).slots i).pos = 0 ∧
        ((st.playAll).slots i).paused = false ∧
        ((st.playAll).slots i).src = some u)) := by
  constructor
  · intro h
    rw [playAll_slot, play_of_none _ h]
  · intro u h
    rw [playAll_slot, play_of_some _ u h]
    exact ⟨rfl, rfl, rfl, rfl⟩

/-- Witness for the amended claim C8: an asset-free slot is untouched
and a stopped slot holding an asset starts playing. -/
theorem C8_witness :
    ((LoopStation.init.playAll).slots 0 = LoopStation.init.slots 0) ∧
    (((({ slots := (Function.update LoopStation.init.slots 0
            { LoopSlot.init with
              state := SlotState.stopped
              audioUrl := some [2] })
          pending := [] } : LoopStation).playAll).slots 0).state =
          SlotState.playing) :=
  ⟨(C8_playAll_plays_exactly_slots_with_asset LoopStation.init 0).1 rfl,
   ((C8_playAll_plays_exactly_slots_with_asset _ 0).2 [2] (by decide)).1⟩

/-- Claim C9, counterexample: with the microphone never granted, a
toggleRecord on an empty slot still transitions that slot to the
recording state, because the record destination exists independently of
the microphone; start of recording does not fail and the slot does not
remain empty as the claim states. -/
theorem C9_counterexample :
    (({ audio := { micConnected := false }, looper := LoopStation.init } :
        App).audio.micConnected = false) ∧
    ((LoopStation.init.slots 0).state = SlotState.empty) ∧
    (((({ audio := { micConnected := false }, looper := LoopStation.init } :
        App).toggleRecord 0).looper.slots 0).state = SlotState.recording) := by
  refine ⟨rfl, rfl, ?_⟩
  decide

/-- Claim C9, amended: a denied microphone permission surfaces a
recoverable alert from setupMic and changes nothing else, and the
station keeps operating; recording itself never fails for lack of the
microphone: toggleRecord on an empty slot always moves it to recording
and leaves the audio engine untouched. -/
theorem C9_mic_denied_surfaces_error_and_recording_proceeds :
    (∀ e : AudioEngine, e.setupMic false = (e, some micErrMsg)) ∧
    (∀ (a : App) (i : Fin 3), (a.looper.slots i).state = SlotState.empty →
      ((((a.toggleRecord i).looper.slots i).state = SlotState.recording) ∧
        (a.toggleRecord i).audio = a.audio)) := by
  constructor
  · intro e
    rfl
  · intro a i hs
    constructor
    · show ((a.looper.toggleRecord i).slots i).state = SlotState.recording
      rw [toggleRecord_eq]
      simp only [Function.update_same]
      rw [forcedStops_slot_idx]
      unfold LoopSlot.toggle
      rw [if_neg (by rw [hs]; decide)]
      rfl
    · rfl

/-- Witness for the amended claim C9 at a concrete denied-microphone
app. -/
theorem C9_witness :
    (({ micConnected := true } : AudioEngine).setupMic false =
      ({ micConnected := true }, some micErrMsg)) ∧
    (((({ audio := { micConnected := false }, looper := LoopStation.init } :
        App).toggleRecord 1).looper.slots 1).state = SlotState.recording) :=
  ⟨C9_mic_denied_surfaces_error_and_recording_proceeds.1
      { micConnected := true },
   ((C9_mic_denied_surfaces_error_and_recording_proceeds.2 _ 1 rfl).1)⟩

/-- Claim C10: play on a slot with no recorded asset is a no-op, every
field unchanged, and in every reachable station playAll therefore
leaves an empty slot unchanged, since a reachable empty slot has no
asset. -/
theorem C10_play_without_asset_is_noop :
    (∀ s : LoopSlot, s.audioUrl = none → s.play = s) ∧
    (∀ st : LoopStation, Reachable st → ∀ i : Fin 3,
      (st.slots i).state = SlotState.empty →
      (st.playAll).slots i = st.slots i) := by
  constructor
  · intro s h
    exact play_of_none s h
  · intro st hr i hs
    rw [playAll_slot]
    exact play_of_none _ ((reachable_stInv st hr).2.2.2 i hs)

/-- Witness for claim C10 at the fresh slot and the fresh station. -/
theorem C10_witness :
    (LoopSlot.init.play = LoopSlot.init) ∧
    ((LoopStation.init.playAll).slots 1 = LoopStation.init.slots 1) :=
  ⟨C10_play_without_asset_is_noop.1 LoopSlot.init rfl,
   C10_play_without_asset_is_noop.2 LoopStation.init ⟨[], rfl⟩ 1 rfl⟩

/-- Claim C5: start recording on a slot, deliver any sequence of
capture chunks, stop the recording and let the finalize callback run:
the slot ends in the playing state, its stored asset is the
concatenation of exactly the received chunks in arrival order, and
playback has begun. -/
theorem C5_stop_record_concatenates_chunks (cs : List (List Nat)) (i : Fin 3) :
    ((runEv LoopStation.init ([Ev.toggleRecord i] ++ cs.map (Ev.chunk i) ++
        [Ev.toggleRecord i, Ev.finalize])).slots i).state =
      SlotState.playing ∧
    ((runEv LoopStation.init ([Ev.toggleRecord i] ++ cs.map (Ev.chunk i) ++
        [Ev.toggleRecord i, Ev.finalize])).slots i).audioUrl =
      some cs.flatten ∧
    ((runEv LoopStation.init ([Ev.toggleRecord i] ++ cs.map (Ev.chunk i) ++
        [Ev.toggleRecord i, Ev.finalize])).slots i).paused = false := by
  have hq1 : ∀ j, j ≠ i → (LoopStation.init.slots j).state ≠
      SlotState.recording := by
    intro j hj
    show SlotState.empty ≠ SlotState.recording
    decide
  have hst1 : runEv LoopStation.init [Ev.toggleRecord i] =
      { slots := (Function.update LoopStation.init.slots i
          LoopSlot.init.startRecording)
        pending := [] } := by
    show LoopStation.init.toggleRecord i = _
    rw [toggleRecord_of_quiet _ _ hq1]
    rfl
  have hst2 : runEv LoopStation.init
      ([Ev.toggleRecord i] ++ cs.map (Ev.chunk i)) =
      { slots := (Function.update LoopStation.init.slots i
          { LoopSlot.init.startRecording with chunks := cs })
        pending := [] } := by
    rw [runEv_append, hst1,
      runEv_chunks cs _ i (by simp [Function.update_same, LoopSlot.startRecording])
        (by simp [Function.update_same, LoopSlot.startRecording])]
    simp [Function.update_idem, Function.update_same, LoopSlot.startRecording]
  have hq2 : ∀ j, j ≠ i →
      ((({ slots := (Function.update LoopStation.init.slots i
             { LoopSlot.init.startRecording with chunks := cs })
           pending := [] } : LoopStation)).slots j).state ≠
        SlotState.recording := by
    intro j hj
    simp [Function.update_noteq hj]
    show SlotState.empty ≠ SlotState.recording
    decide
  have hst3 : runEv LoopStation.init
      ([Ev.toggleRecord i] ++ cs.map (Ev.chunk i) ++ [Ev.toggleRecord i]) =
      { slots := (Function.update LoopStation.init.slots i
          { LoopSlot.init.startRecording with
            chunks := cs
            recStopped := true })
        pending := [i] } := by
    rw [runEv_append, hst2]
    show LoopStation.toggleRecord _ i = _
    rw [toggleRecord_of_quiet _ _ hq2]
    simp [Function.update_same, Function.update_idem, LoopSlot.toggle,
      LoopSlot.stopRecording, LoopSlot.startRecording]
  have hsplit : ([Ev.toggleRecord i] ++ cs.map (Ev.chunk i) ++
      [Ev.toggleRecord i, Ev.finalize]) =
      (([Ev.toggleRecord i] ++ cs.map (Ev.chunk i) ++ [Ev.toggleRecord i]) ++
        [Ev.finalize]) := by
    simp
  rw [hsplit, runEv_append, hst3]
  have hd : runEv
      ({ slots := (Function.update LoopStation.init.slots i
           { LoopSlot.init.startRecording with
             chunks := cs
             recStopped := true })
         pending := [i] } : LoopStation) [Ev.finalize] =
      { slots := (Function.update LoopStation.init.slots i
          (({ LoopSlot.init.startRecording with
              chunks := cs
              recStopped := true } : LoopSlot).onstop))
        pending := [] } := by
    have hrw : ∀ st : LoopStation, runEv st [Ev.finalize] = st.deliverFinalize :=
      fun _ => rfl
    rw [hrw]
    unfold LoopStation.deliverFinalize
    simp [Function.update_same, Function.update_idem]
  rw [hd]
  simp only [Function.update_same]
  refine ⟨(onstop_fields _).1, ?_, (onstop_fields _).2.2.1⟩
  rw [(onstop_fields _).2.1]

/-! Facts about the metronome scheduler. -/

theorem schedulerLoop_spec (limit : ℚ) (fuel : Nat) : ∀ m : Metronome,
    ∃ k : Nat,
      (schedulerLoop limit fuel m).1 =
        (List.range k).map (fun j : Nat => m.nextNoteTime + (j : ℚ) * (60 / m.bpm)) ∧
      ((schedulerLoop limit fuel m).2).nextNoteTime =
        m.nextNoteTime + k * (60 / m.bpm) ∧
      ((schedulerLoop limit fuel m).2).bpm = m.bpm ∧
      ((schedulerLoop limit fuel m).2).isPlaying = m.isPlaying := by
  induction fuel with
  | zero =>
      intro m
      exact ⟨0, by simp [schedulerLoop], by simp [schedulerLoop], rfl, rfl⟩
  | succ n ih =>
      intro m
      unfold schedulerLoop
      split_ifs with h
      · obtain ⟨k, h1, h2, h3, h4⟩ := ih m.nextNote
        refine ⟨k + 1, ?_, ?_, ?_, ?_⟩
        · show m.nextNoteTime :: (schedulerLoop limit n m.nextNote).1 = _
          rw [h1, List.range_succ_eq_map, List.map_cons, List.map_map]
          congr 1
          · simp
          · congr 1
            funext j
            simp [Metronome.nextNote, Function.comp]
            ring
        · show ((schedulerLoop limit n m.nextNote).2).nextNoteTime = _
          rw [h2]
          simp [Metronome.nextNote]
          ring
        · show ((schedulerLoop limit n m.nextNote).2).bpm = _
          rw [h3]
          rfl
        · show ((schedulerLoop limit n m.nextNote).2).isPlaying = _
          rw [h4]
          rfl
      · exact ⟨0, by simp, by simp, rfl, rfl⟩

theorem schedulerLoop_mem_lt (limit : ℚ) (fuel : Nat) : ∀ (m : Metronome)
    (e : ℚ), e ∈ (schedulerLoop limit fuel m).1 → e < limit := by
  induction fuel with
  | zero =>
      intro m e he
      exact absurd he (List.not_mem_nil e)
  | succ n ih =>
      intro m e he
      unfold schedulerLoop at he
      split_ifs at he with h
      · simp only [List.mem_cons] at he
        rcases he with rfl | hm
        · exact h
        · exact ih m.nextNote e hm
      · exact absurd he (List.not_mem_nil e)

theorem schedulerLoop_final_ge (limit : ℚ) (fuel : Nat) : ∀ m : Metronome,
    0 < 60 / m.bpm → limit - m.nextNoteTime ≤ fuel * (60 / m.bpm) →
    limit ≤ ((schedulerLoop limit fuel m).2).nextNoteTime := by
  induction fuel with
  | zero =>
      intro m hs hf
      push_cast at hf
      show limit ≤ m.nextNoteTime
      linarith
  | succ n ih =>
      intro m hs hf
      unfold schedulerLoop
      split_ifs with h
      · show limit ≤ ((schedulerLoop limit n m.nextNote).2).nextNoteTime
        apply ih m.nextNote hs
        show limit - (m.nextNoteTime + 60 / m.bpm) ≤ (n : ℚ) * (60 / m.bpm)
        push_cast at hf ⊢
        linarith
      · exact le_of_not_lt h

theorem schedulerFuel_spec (m : Metronome) (now : ℚ) (hb : 0 < m.bpm) :
    now + Metronome.scheduleAheadTime - m.nextNoteTime ≤
      (m.schedulerFuel now : ℚ) * (60 / m.bpm) := by
  have hs : (0 : ℚ) < 60 / m.bpm := by positivity
  rw [← div_le_iff₀ hs]
  unfold Metronome.schedulerFuel
  calc (now + Metronome.scheduleAheadTime - m.nextNoteTime) / (60 / m.bpm)
      ≤ (⌈(now + Metronome.scheduleAheadTime - m.nextNoteTime) /
          (60 / m.bpm)⌉ : ℚ) := Int.le_ceil _
    _ ≤ _ := by exact_mod_cast Int.self_le_toNat _

theorem scheduler_spec (m : Metronome) (now : ℚ) (hb : 0 < m.bpm) :
    ∃ k : Nat,
      (m.scheduler now).2 =
        (List.range k).map (fun j : Nat => m.nextNoteTime + (j : ℚ) * (60 / m.bpm)) ∧
      (m.scheduler now).1.nextNoteTime =
        m.nextNoteTime + k * (60 / m.bpm) ∧
      (m.scheduler now).1.bpm = m.bpm ∧
      (m.scheduler now).1.isPlaying = m.isPlaying ∧
      now + Metronome.scheduleAheadTime ≤ (m.scheduler now).1.nextNoteTime ∧
      m.nextNoteTime ≤ (m.scheduler now).1.nextNoteTime := by
  obtain ⟨k, h1, h2, h3, h4⟩ :=
    schedulerLoop_spec (now + Metronome.scheduleAheadTime)
      (m.schedulerFuel now) m
  have hs : (0 : ℚ) < 60 / m.bpm := by positivity
  refine ⟨k, h1, h2, h3, h4, ?_, ?_⟩
  · exact schedulerLoop_final_ge _ _ m hs (schedulerFuel_spec m now hb)
  · have h2b : (m.scheduler now).1.nextNoteTime =
        m.nextNoteTime + k * (60 / m.bpm) := h2
    rw [h2b]
    have hkk : (0 : ℚ) ≤ (k : ℚ) * (60 / m.bpm) := by positivity
    linarith

theorem scheduler_single_emit (m : Metronome) (now : ℚ) (hb : 0 < m.bpm)
    (hlt : m.nextNoteTime < now + Metronome.scheduleAheadTime)
    (hge : now + Metronome.scheduleAheadTime ≤ m.nextNoteTime + 60 / m.bpm) :
    (m.scheduler now).2 = [m.nextNoteTime] ∧
    (m.scheduler now).1.nextNoteTime = m.nextNoteTime + 60 / m.bpm ∧
    (m.scheduler now).1.isPlaying = m.isPlaying ∧
    (m.scheduler now).1.bpm = m.bpm := by
  obtain ⟨k, h1, h2, h3, h4, h5, h6⟩ := scheduler_spec m now hb
  have hs : (0 : ℚ) < 60 / m.bpm := by positivity
  have hk : k = 1 := by
    rcases Nat.lt_or_ge k 1 with hlt1 | hge1
    · exfalso
      have hk0 : k = 0 := by omega
      subst hk0
      rw [h2] at h5
      push_cast at h5
      linarith
    · rcases Nat.lt_or_ge k 2 with hlt2 | hge2
      · omega
      · exfalso
        have hmem : m.nextNoteTime + ((1 : Nat) : ℚ) * (60 / m.bpm) ∈
            (m.scheduler now).2 := by
          rw [h1]
          exact List.mem_map_of_mem _ (List.mem_range.mpr (by omega))
        have hlt3 := schedulerLoop_mem_lt (now + Metronome.scheduleAheadTime)
          (m.schedulerFuel now) m _ hmem
        push_cast at hlt3
        linarith
  subst hk
  refine ⟨?_, ?_, h4, h3⟩
  · rw [h1, show List.range 1 = [0] from rfl, List.map_cons, List.map_nil]
    simp
  · rw [h2]
    push_cast
    ring

theorem toggle_off (m : Metronome) (t : ℚ) (h : m.isPlaying = true) :
    m.toggle t = ({ m with isPlaying := false }, []) := by
  unfold Metronome.toggle
  rw [h]
  rfl

theorem runPasses_spec (ts : List ℚ) : ∀ (m : Metronome), 0 < m.bpm →
    ∃ k : Nat,
      (m.runPasses ts).2 =
        (List.range k).map (fun j : Nat => m.nextNoteTime + (j : ℚ) * (60 / m.bpm)) ∧
      (m.runPasses ts).1.nextNoteTime = m.nextNoteTime + k * (60 / m.bpm) ∧
      (m.runPasses ts).1.bpm = m.bpm := by
  induction ts with
  | nil =>
      intro m hb
      exact ⟨0, by simp [Metronome.runPasses], by simp [Metronome.runPasses],
        rfl⟩
  | cons t ts ih =>
      intro m hb
      obtain ⟨k1, h1, h2, h3, h4, h5, h6⟩ := scheduler_spec m t hb
      obtain ⟨k2, g1, g2, g3⟩ := ih (m.scheduler t).1 (by rw [h3]; exact hb)
      refine ⟨k1 + k2, ?_, ?_, ?_⟩
      · show (m.scheduler t).2 ++ ((m.scheduler t).1.runPasses ts).2 = _
        rw [h1, g1, h2, h3, List.range_add, List.map_append, List.map_map]
        congr 1
        congr 1
        funext j
        simp [Function.comp]
        ring
      · show ((m.scheduler t).1.runPasses ts).1.nextNoteTime = _
        rw [g2, h2, h3]
        push_cast
        ring
      · show ((m.scheduler t).1.runPasses ts).1.bpm = m.bpm
        rw [g3, h3]

theorem startAndRun_spec (bpm t0 : ℚ) (ts : List ℚ) (hb : 0 < bpm) :
    ∃ n : Nat, startAndRun bpm t0 ts =
      (List.range n).map (fun j : Nat => t0 + (j : ℚ) * (60 / bpm)) := by
  have hb2 : (0 : ℚ) <
      ({ isPlaying := true, bpm := bpm, nextNoteTime := t0 } : Metronome).bpm :=
    hb
  obtain ⟨k1, h1, h2, h3, h4, h5, h6⟩ :=
    scheduler_spec ({ isPlaying := true, bpm := bpm, nextNoteTime := t0 }) t0
      hb2
  obtain ⟨k2, g1, g2, g3⟩ := runPasses_spec ts
    (Metronome.scheduler { isPlaying := true, bpm := bpm, nextNoteTime := t0 }
      t0).1 (by rw [h3]; exact hb2)
  refine ⟨k1 + k2, ?_⟩
  show (Metronome.scheduler
      { isPlaying := true, bpm := bpm, nextNoteTime := t0 } t0).2 ++
    ((Metronome.scheduler
      { isPlaying := true, bpm := bpm, nextNoteTime := t0 } t0).1.runPasses
        ts).2 = _
  rw [h1, g1, h2, h3, List.range_add, List.map_append, List.map_map]
  congr 1
  congr 1
  funext j
  simp [Function.comp]
  ring

/-! Claim theorems for the metronome scheduler. -/

/-- Claim C3, counterexample: start the default metronome at clock
time zero; the scheduling pass performed by the start leaves
next_event_time at one half, which does not lie in the half-open
window from now to now plus the schedule-ahead window: the loop exits
precisely when next_event_time has moved past the window, never
inside it. -/
theorem C3_counterexample :
    (Metronome.init.toggle 0).1.nextNoteTime = 1 / 2 ∧
    ¬((Metronome.init.toggle 0).1.nextNoteTime <
        0 + Metronome.scheduleAheadTime) := by
  have htog : Metronome.init.toggle 0 =
      Metronome.scheduler
        { Metronome.init with isPlaying := true, nextNoteTime := 0 } 0 := rfl
  obtain ⟨e1, n1, p1, b1⟩ := scheduler_single_emit
    ({ Metronome.init with isPlaying := true, nextNoteTime := 0 }) 0
    (by norm_num [Metronome.init])
    (by norm_num [Metronome.init, Metronome.scheduleAheadTime])
    (by norm_num [Metronome.init, Metronome.scheduleAheadTime])
  constructor
  · rw [htog, n1]
    norm_num [Metronome.init]
  · rw [htog, n1]
    norm_num [Metronome.init, Metronome.scheduleAheadTime]

/-- Claim C3, amended: while running, next_event_time never decreases
across a scheduling pass, and immediately after a pass at clock time
now it is at least now plus the schedule-ahead window, hence strictly
ahead of now but never inside the window. -/
theorem C3_next_time_monotone_and_ahead (m : Metronome) (now : ℚ)
    (hb : 0 < m.bpm) :
    m.nextNoteTime ≤ (m.scheduler now).1.nextNoteTime ∧
    now + Metronome.scheduleAheadTime ≤ (m.scheduler now).1.nextNoteTime ∧
    now < (m.scheduler now).1.nextNoteTime := by
  obtain ⟨k, h1, h2, h3, h4, h5, h6⟩ := scheduler_spec m now hb
  refine ⟨h6, h5, ?_⟩
  have hpos : (0 : ℚ) < Metronome.scheduleAheadTime := by
    norm_num [Metronome.scheduleAheadTime]
  linarith

/-- Witness for the amended claim C3 at the default metronome. -/
theorem C3_witness :
    Metronome.init.nextNoteTime ≤
      (Metronome.init.scheduler 0).1.nextNoteTime ∧
    0 + Metronome.scheduleAheadTime ≤
      (Metronome.init.scheduler 0).1.nextNoteTime ∧
    0 < (Metronome.init.scheduler 0).1.nextNoteTime :=
  C3_next_time_monotone_and_ahead Metronome.init 0
    (by norm_num [Metronome.init])

/-- Claim C4: for every positive bpm held fixed, whatever the clock
times at which the coarse driving timer fires the passes, consecutive
emitted trigger times differ by exactly sixty over bpm seconds: the
times come only from the accumulated beat arithmetic seeded at
start. -/
theorem C4_zero_jitter (bpm t0 : ℚ) (ts : List ℚ) (hb : 0 < bpm) (i : Nat)
    (h : i + 1 < (startAndRun bpm t0 ts).length) :
    (startAndRun bpm t0 ts).getD (i + 1) 0 -
      (startAndRun bpm t0 ts).getD i 0 = 60 / bpm := by
  obtain ⟨n, hn⟩ := startAndRun_spec bpm t0 ts hb
  rw [hn] at h ⊢
  rw [List.length_map, List.length_range] at h
  rw [List.getD_eq_getElem _ _ (by simp; omega),
    List.getD_eq_getElem _ _ (by simp; omega)]
  simp only [List.getElem_map, List.getElem_range]
  push_cast
  ring

/-- Witness for claim C4: with bpm 120, start at time zero and one
later pass; the two emitted events are half a second apart. -/
theorem C4_witness :
    (0 : ℚ) < 120 ∧
    0 + 1 < (startAndRun 120 0 [1 / 2]).length ∧
    (startAndRun 120 0 [1 / 2]).getD (0 + 1) 0 -
      (startAndRun 120 0 [1 / 2]).getD 0 0 = 60 / 120 := by
  have h1 := scheduler_single_emit
    ({ isPlaying := true, bpm := 120, nextNoteTime := 0 } : Metronome) 0
    (by norm_num) (by norm_num [Metronome.scheduleAheadTime])
    (by norm_num [Metronome.scheduleAheadTime])
  obtain ⟨e1, n1, p1, b1⟩ := h1
  have h2 := scheduler_single_emit
    (Metronome.scheduler
      { isPlaying := true, bpm := 120, nextNoteTime := 0 } 0).1 (1 / 2)
    (by rw [b1]; norm_num)
    (by rw [n1]; norm_num [Metronome.scheduleAheadTime])
    (by rw [n1, b1]; norm_num [Metronome.scheduleAheadTime])
  obtain ⟨e2, n2, p2, b2⟩ := h2
  have hList : startAndRun 120 0 [1 / 2] = [0, 1 / 2] := by
    show (Metronome.scheduler
        { isPlaying := true, bpm := 120, nextNoteTime := 0 } 0).2 ++
      (((Metronome.scheduler
        { isPlaying := true, bpm := 120, nextNoteTime := 0 } 0).1.scheduler
          (1 / 2)).2 ++ []) = [0, 1 / 2]
    rw [e1, e2, n1]
    norm_num
  refine ⟨by norm_num, ?_, ?_⟩
  · rw [hList]
    norm_num
  · exact C4_zero_jitter 120 0 [1 / 2] (by norm_num) 0 (by rw [hList]; norm_num)

/-- Claim C6: toggling the stopped metronome on resets next_event_time
to the current clock time and runs one scheduling pass immediately;
with the 100 millisecond window and 120 bpm this pass emits exactly
one event, at the start time itself, and stopping 10 milliseconds
later, before the 25 millisecond driving timer can fire again, emits
nothing further. -/
theorem C6_start_emits_immediately (m : Metronome) (now : ℚ)
    (hoff : m.isPlaying = false) (hbpm : m.bpm = 120) :
    (m.toggle now).2 = [now] ∧
    (m.toggle now).1.nextNoteTime = now + 1 / 2 ∧
    (m.toggle now).1.isPlaying = true ∧
    ((m.toggle now).1.toggle (now + 1 / 100)).2 = [] ∧
    ((m.toggle now).1.toggle (now + 1 / 100)).1.isPlaying = false := by
  have htog : m.toggle now =
      Metronome.scheduler { m with isPlaying := true, nextNoteTime := now }
        now := by
    unfold Metronome.toggle
    rw [hoff]
    rfl
  have hbp : ({ m with isPlaying := true, nextNoteTime := now } :
      Metronome).bpm = 120 := hbpm
  obtain ⟨e1, n1, p1, b1⟩ := scheduler_single_emit
    ({ m with isPlaying := true, nextNoteTime := now }) now
    (by rw [hbp]; norm_num)
    (by show now < now + Metronome.scheduleAheadTime
        norm_num [Metronome.scheduleAheadTime])
    (by show now + Metronome.scheduleAheadTime ≤ now + 60 / _
        rw [hbp]
        norm_num [Metronome.scheduleAheadTime])
  have hplay : (m.toggle now).1.isPlaying = true := by
    rw [htog, p1]
  refine ⟨?_, ?_, hplay, ?_, ?_⟩
  · rw [htog, e1]
  · rw [htog, n1, hbp]
    norm_num
  · rw [toggle_off _ _ hplay]
  · rw [toggle_off _ _ hplay]

/-- Witness for claim C6 at the default metronome started at time
zero. -/
theorem C6_witness :
    (Metronome.init.toggle 0).2 = [0] ∧
    ((Metronome.init.toggle 0).1.toggle (0 + 1 / 100)).2 = [] :=
  ⟨(C6_start_emits_immediately Metronome.init 0 rfl rfl).1,
   (C6_start_emits_immediately Metronome.init 0 rfl rfl).2.2.2.1⟩

end OoperLooper
